import Mathlib

/-!
# Verification of the `flyingpigeon` distribution-dissimilarity core

Shallow embedding of `src/flyingpigeon/dist_diff.py` and of the dispatcher in
`src/flyingpigeon/ocgisDissimilarity.py`.  Numpy float arrays are modelled as
real-valued matrices with explicit shape; numpy's `nan` result of `kldiv` is a
dedicated constructor; exceptions (the `assert` statements) are modelled with
`Except`.  The `cKDTree.query(q, k=K)` call is modelled by the list of
distances from the query point to every point of the indexed sample, sorted
ascending, truncated to its first `K` entries — faithful whenever the accessed
neighbour rank is within the sample size (numpy pads missing neighbours with
`inf`, which the theorems exclude by hypothesis).
-/

namespace FP

/-- A dense 2-D numpy array: `r` rows (observations) by `c` columns
(features); `entry i j` is the value at row `i`, column `j` (entries outside
the shape are never consulted). -/
structure Mat where
  r : ℕ
  c : ℕ
  entry : ℕ → ℕ → ℝ

/-- A raw input array as the metrics receive it: 1-D of length `n`, or 2-D. -/
inductive NpArr
  | one (n : ℕ) (v : ℕ → ℝ)
  | two (m : Mat)

/-- The error taxonomy of the spec (§7).  `ShapeMismatch` is the
`assert (dx == dy)` of `check_sample_shape`, `DimensionalityError` the
`assert (dx < 10)` of `kldiv`, `UnknownAlgorithm` the
`assert (algo in self._potential_algo)` of the dispatcher. -/
inductive DistErr
  | ShapeMismatch
  | DimensionalityError
  | UnknownAlgorithm
deriving DecidableEq

/-- `np.atleast_2d`: a 1-D array of length `n` becomes a `(1, n)` array. -/
def np_atleast_2d : NpArr → Mat
  | .one n v => ⟨1, n, fun _ j => v j⟩
  | .two m => m

/-- `x.T`. -/
def Mat.transpose (m : Mat) : Mat := ⟨m.c, m.r, fun i j => m.entry j i⟩

/-- What `check_sample_shape` does to a single operand before the matching
assert: `atleast_2d`, then `if x.shape[0] == 1: x = x.T`. -/
def normOne (a : NpArr) : Mat :=
  let m := np_atleast_2d a
  if m.r = 1 then m.transpose else m

/-- `check_sample_shape(x, y)` of dist_diff.py: normalise both operands,
`assert (dx == dy)`, return the pair. -/
def check_sample_shape (x y : NpArr) : Except DistErr (Mat × Mat) :=
  let x' := normOne x
  let y' := normOne y
  if x'.c = y'.c then .ok (x', y') else .error .ShapeMismatch

/-- Row `i` of a matrix, as a point of `ℝ^c`. -/
def Mat.row (m : Mat) (i : ℕ) : ℕ → ℝ := m.entry i

/-- `m.mean(0)` at column `j`. -/
noncomputable def colMean (m : Mat) (j : ℕ) : ℝ :=
  (∑ i ∈ Finset.range m.r, m.entry i j) / m.r

/-- `m.var(0, ddof=1)` at column `j`. -/
noncomputable def colVar (m : Mat) (j : ℕ) : ℝ :=
  (∑ i ∈ Finset.range m.r, (m.entry i j - colMean m j) ^ 2) / ((m.r : ℝ) - 1)

/-- `m.std(0, ddof=1)` at column `j`. -/
noncomputable def colStd (m : Mat) (j : ℕ) : ℝ := Real.sqrt (colVar m j)

/-- Squared Euclidean distance between two points of `ℝ^c`. -/
noncomputable def sqDist (c : ℕ) (u v : ℕ → ℝ) : ℝ :=
  ∑ j ∈ Finset.range c, (u j - v j) ^ 2

/-- Euclidean distance between two points of `ℝ^c`. -/
noncomputable def eDist (c : ℕ) (u v : ℕ → ℝ) : ℝ := Real.sqrt (sqDist c u v)

/-- `standardize(x, y)`: divide both samples by
`s = sqrt(x.std(0, ddof=1) * y.std(0, ddof=1))`, per feature. -/
noncomputable def stdFactor (x y : Mat) (j : ℕ) : ℝ :=
  Real.sqrt (colStd x j * colStd y j)

/-- The standardized pair returned by `standardize(x, y)`. -/
noncomputable def standardize (x y : Mat) : Mat × Mat :=
  (⟨x.r, x.c, fun i j => x.entry i j / stdFactor x y j⟩,
   ⟨y.r, y.c, fun i j => y.entry i j / stdFactor x y j⟩)

/-- `np.vstack([x, y])`. -/
def vstack (x y : Mat) : Mat :=
  ⟨x.r + y.r, x.c, fun i j => if i < x.r then x.entry i j else y.entry (i - x.r) j⟩

/-- `seuclidean(x, y)`: the standardized Euclidean distance between the column
means, with the reference sample's per-column variance
(`scipy.spatial.distance.seuclidean(mx, my, x.var(0, ddof=1))`). -/
noncomputable def seuclidean (x y : NpArr) : Except DistErr ℝ := do
  let (x', y') ← check_sample_shape x y
  .ok (Real.sqrt (∑ j ∈ Finset.range x'.c,
    (colMean x' j - colMean y' j) ^ 2 / colVar x' j))

/-- The distances from a query point to every row of an indexed sample
(the raw content of a `cKDTree` built on `m`, seen from `q`). -/
noncomputable def distList (q : ℕ → ℝ) (m : Mat) : List ℝ :=
  (List.range m.r).map fun i => eDist m.c q (m.row i)

/-- Those distances sorted ascending: what `tree.query(q, k=...)` draws from. -/
noncomputable def sortedDistList (q : ℕ → ℝ) (m : Mat) : List ℝ :=
  (distList q m).insertionSort (· ≤ ·)

/-- `tree.query(q, k=K, p=2)`: the `K` smallest distances, ascending. -/
noncomputable def queryDists (q : ℕ → ℝ) (m : Mat) (K : ℕ) : List ℝ :=
  (sortedDistList q m).take K

/-- The `k` argument of `kldiv`: a scalar or a sequence
(`mk = np.iterable(k)` distinguishes the two). -/
inductive KArg
  | scalar (k : ℕ)
  | seq (ks : List ℕ)

/-- `np.atleast_1d(k)`. -/
def KArg.toList : KArg → List ℕ
  | .scalar k => [k]
  | .seq ks => ks

/-- What `kldiv` returns when no assert fires: `np.nan`, a single float, or
one estimate per requested `k`. -/
inductive KLReturn
  | nan
  | scalar (v : ℝ)
  | seq (vs : List ℝ)

/-- One entry of the `D` list built by `kldiv`'s loop for the requested rank
`ki`, from the size-`K` queries `r` (self sample) and `s` (other sample):
`-np.log(r[:, ki] / s[:, ki - 1]).sum() * dx / nx + np.log(ny / (nx - 1.))`. -/
noncomputable def klTerm (x y : Mat) (K ki : ℕ) : ℝ :=
  -(∑ i ∈ Finset.range x.r,
      Real.log ((queryDists (x.row i) x K).getD ki 0 /
                (queryDists (x.row i) y K).getD (ki - 1) 0))
    * (x.c : ℝ) / (x.r : ℝ)
    + Real.log ((y.r : ℝ) / ((x.r : ℝ) - 1))

/-- `kldiv(x, y, k=1)` of dist_diff.py.  The `assert (dx < 10)` is the
spec's `DimensionalityError`; `nx < 5 or ny < 5` returns `np.nan`; otherwise
both trees are queried once with `K = max(ka) + 1` and one estimate per
requested `k` is produced, returned as a float for a scalar `k` and as a list
for a sequence `k`. -/
noncomputable def kldiv (x y : NpArr) (k : KArg) : Except DistErr KLReturn := do
  let (x', y') ← check_sample_shape x y
  if 10 ≤ x'.c then .error .DimensionalityError
  else if x'.r < 5 ∨ y'.r < 5 then .ok .nan
  else
    let ka := k.toList
    let K := ka.foldr max 0 + 1
    let D := ka.map (klTerm x' y' K)
    match k with
    | .scalar _ => .ok (.scalar (D.getD 0 0))
    | .seq _ => .ok (.seq D)

/-- Claim C1's closed form for the scalar estimate, following the spec's
words: `D(P‖Q) = −(d/n) · Σ_i log( r_k(x_i) / s_k(x_i) ) + log( m / (n−1) )`,
`r_k(x_i)` read at 0-based index `k` of the full sorted self-query and
`s_k(x_i)` at index `k−1` of the full sorted cross-query. -/
noncomputable def kldivSpecFormula (x y : Mat) (k : ℕ) : ℝ :=
  -((x.c : ℝ) / (x.r : ℝ)) *
      (∑ i ∈ Finset.range x.r,
        Real.log ((sortedDistList (x.row i) x).getD k 0 /
                  (sortedDistList (x.row i) y).getD (k - 1) 0))
    + Real.log ((y.r : ℝ) / ((x.r : ℝ) - 1))

/-- First index of `l` minimising `f` (ties to the earlier index), 0 on an
empty list.  Models the identity returned by a k-d tree query. -/
noncomputable def argminList (f : ℕ → ℝ) : List ℕ → ℕ
  | [] => 0
  | j :: js => js.foldl (fun b j' => if f j' < f b then j' else b) j

/-- Index of the nearest neighbour of pooled point `i` other than `i` itself:
the second column of `tree.query(xy, k=2)` (the first is `i`, at distance 0).
Ties are broken towards the smaller index, as `cKDTree` does. -/
noncomputable def nnOther (m : Mat) (i : ℕ) : ℕ :=
  argminList (fun j => eDist m.c (m.row i) (m.row j))
    ((List.range m.r).filter fun j => j != i)

/-- `nearest_neighbor(x, y)` of dist_diff.py: normalise, standardize, pool,
and return the fraction of pooled points whose nearest other point comes from
the same original sample (`same.mean()`). -/
noncomputable def nearest_neighbor (x y : NpArr) : Except DistErr ℝ := do
  let (x₀, y₀) ← check_sample_shape x y
  let (x', y') := standardize x₀ y₀
  let xy := vstack x' y'
  let nx := x'.r
  .ok ((((List.range xy.r).countP fun i =>
      decide (i < nx) == decide (nnOther xy i < nx)) : ℝ) / (xy.r : ℝ))

/-- `scipy.spatial.distance.pdist(..., 'seuclidean', V=v)` entry: the
variance-scaled Euclidean distance between two points. -/
noncomputable def seuclDistV (v : ℕ → ℝ) (c : ℕ) (u w : ℕ → ℝ) : ℝ :=
  Real.sqrt (∑ j ∈ Finset.range c, (u j - w j) ^ 2 / v j)

/-- `zech_aslan(x, y)` of dist_diff.py: with `v = x.std(0,ddof=1) *
y.std(0,ddof=1)`, the within-sample energies `phix`, `phiy` over unordered
pairs and the cross energy `phixy` over the `dxy[nx:, :nx]` block. -/
noncomputable def zech_aslan (x y : NpArr) : Except DistErr ℝ := do
  let (x', y') ← check_sample_shape x y
  let nx := x'.r
  let ny := y'.r
  let v : ℕ → ℝ := fun j => colStd x' j * colStd y' j
  let phix := -(∑ i ∈ Finset.range nx, ∑ j ∈ Finset.Ico (i + 1) nx,
      Real.log (seuclDistV v x'.c (x'.row i) (x'.row j))) / (nx : ℝ) / ((nx : ℝ) - 1)
  let phiy := -(∑ i ∈ Finset.range ny, ∑ j ∈ Finset.Ico (i + 1) ny,
      Real.log (seuclDistV v x'.c (y'.row i) (y'.row j))) / (ny : ℝ) / ((ny : ℝ) - 1)
  let phixy := (∑ i ∈ Finset.range ny, ∑ j ∈ Finset.range nx,
      Real.log (seuclDistV v x'.c (y'.row i) (x'.row j))) / (nx : ℝ) / (ny : ℝ)
  .ok (phix + phiy + phixy)

/-! ### Friedman–Rafsky

`friedman_rafsky` builds `neighbors.kneighbors_graph(xy, n_neighbors=n-1,
mode='distance')` — the complete Euclidean-distance graph on the pooled
sample — and takes `scipy.sparse.csgraph.minimum_spanning_tree` of it.  The
MST of the complete graph is modelled by Prim's algorithm, growing from
vertex 0 and adding the cheapest tree-to-rest edge `n-1` times; when all
pairwise distances are distinct the minimum spanning tree is unique, so this
edge set is the one scipy returns, and the statistic only reads the edge
set. -/

/-- All tree-to-rest candidate edges. -/
def candidatePairs (tree rest : List ℕ) : List (ℕ × ℕ) :=
  tree.flatMap fun u => rest.map fun v => (u, v)

/-- Fold picking the cheapest candidate edge (ties to the earlier one). -/
noncomputable def pickMin (w : ℕ → ℕ → ℝ) (l : List (ℕ × ℕ)) (e₀ : ℕ × ℕ) :
    ℕ × ℕ :=
  l.foldl (fun b p => if w p.1 p.2 < w b.1 b.2 then p else b) e₀

/-- Prim's algorithm: one cheapest crossing edge per step, the new endpoint
moving from `rest` to `tree`. -/
noncomputable def primGo (w : ℕ → ℕ → ℝ) : ℕ → List ℕ → List ℕ → List (ℕ × ℕ)
  | 0, _, _ => []
  | fuel + 1, tree, rest =>
    match candidatePairs tree rest with
    | [] => []
    | c :: cs =>
      let e := pickMin w cs c
      e :: primGo w fuel (e.2 :: tree) (rest.erase e.2)

/-- The minimum spanning tree of the complete weighted graph on `{0,…,n-1}`. -/
noncomputable def primMST (w : ℕ → ℕ → ℝ) (n : ℕ) : List (ℕ × ℕ) :=
  primGo w (n - 1) [0] (List.range' 1 (n - 1))

/-- Edge weight for the Friedman–Rafsky graph: the Euclidean distance between
two rows of the pooled sample. -/
noncomputable def frWeight (m : Mat) (i j : ℕ) : ℝ := eDist m.c (m.row i) (m.row j)

/-- `np.logical_xor(*(edges < nx).T)`: the edge joins the two samples. -/
def crossEdge (nx : ℕ) (e : ℕ × ℕ) : Bool :=
  xor (decide (e.1 < nx)) (decide (e.2 < nx))

/-- `friedman_rafsky(x, y)` of dist_diff.py: pool the (shape-normalised,
NOT standardized) samples, build the MST, count edges linking the two
samples, return `1 - (1 + diff)/n`. -/
noncomputable def friedman_rafsky (x y : NpArr) : Except DistErr ℝ := do
  let (x', y') ← check_sample_shape x y
  let n := x'.r + y'.r
  let xy := vstack x' y'
  let edges := primMST (frWeight xy) n
  .ok (1 - (1 + ((edges.countP (crossEdge x'.r)) : ℝ)) / (n : ℝ))

/-- The statistic as claim C5 words it: both samples scaled by the square
root of the product of their per-feature standard deviations BEFORE pooling
(the `standardize` step the source code of `friedman_rafsky` does not
perform), then the same MST construction and count. -/
noncomputable def friedman_rafsky_claimed (x y : NpArr) : Except DistErr ℝ := do
  let (x₀, y₀) ← check_sample_shape x y
  let (x', y') := standardize x₀ y₀
  let n := x'.r + y'.r
  let xy := vstack x' y'
  let edges := primMST (frWeight xy) n
  .ok (1 - (1 + ((edges.countP (crossEdge x'.r)) : ℝ)) / (n : ℝ))

/-! ### The dispatcher (ocgisDissimilarity.py) -/

/-- The shape of a registered metric as the dispatcher stores its result at
one grid position: `none` models a `np.nan` cell. -/
def MetricFn : Type := NpArr → NpArr → Except DistErr (Option ℝ)

noncomputable def seuclideanM : MetricFn := fun x y => (seuclidean x y).map some

noncomputable def nearest_neighborM : MetricFn := fun x y =>
  (nearest_neighbor x y).map some

noncomputable def zech_aslanM : MetricFn := fun x y => (zech_aslan x y).map some

noncomputable def friedman_rafskyM : MetricFn := fun x y =>
  (friedman_rafsky x y).map some

/-- The float the dispatcher stores from a `kldiv` call with its default
scalar `k=1` (the `seq` case cannot arise from a scalar `k`). -/
def KLReturn.toFloat : KLReturn → Option ℝ
  | .nan => none
  | .scalar v => some v
  | .seq vs => vs.head?

noncomputable def kldivM : MetricFn := fun x y =>
  (kldiv x y (.scalar 1)).map KLReturn.toFloat

/-- Modelled from the spec: the `__all__` registry of the `dissimilarity`
module that `ocgisDissimilarity.py` imports (`import dissimilarity as dd`;
the module itself is not among the repository files under src/).  The spec
registers exactly the five metrics {standardized-euclidean, nearest-neighbor,
zech-aslan, friedman-rafsky, kldiv}, named here by the function identifiers
`getattr(dd, algo)` resolves. -/
def registeredAlgos : List String :=
  ["seuclidean", "nearest_neighbor", "zech_aslan", "friedman_rafsky", "kldiv"]

/-- Modelled from the spec: the dispatcher's
`assert (algo in self._potential_algo)` followed by
`metric = getattr(dd, algo)` — look the metric up by name, failing with
`UnknownAlgorithm` for any unregistered name. -/
noncomputable def lookupMetric (algo : String) : Except DistErr MetricFn :=
  if algo = "seuclidean" then .ok seuclideanM
  else if algo = "nearest_neighbor" then .ok nearest_neighborM
  else if algo = "zech_aslan" then .ok zech_aslanM
  else if algo = "friedman_rafsky" then .ok friedman_rafskyM
  else if algo = "kldiv" then .ok kldivM
  else .error .UnknownAlgorithm

/-- `p.compress(~p.mask.any(1), 0)`: keep only the fully valid rows of the
per-position candidate block (`none` entries are the masked/invalid values of
`np.ma.masked_invalid`). -/
def compressValid (cand : List (List (Option ℝ))) : List (List ℝ) :=
  (cand.filter fun row => row.all Option.isSome).map fun row =>
    row.map fun o => o.getD 0

/-- A list of equal-length rows as a 2-D array. -/
def matOfRows (rows : List (List ℝ)) : Mat :=
  ⟨rows.length, (rows.getD 0 []).length, fun i j => (rows.getD i []).getD j 0⟩

/-- One grid position of `Dissimilarity.calculate` (ocgisDissimilarity.py):
compress the masked candidate block, then
`if pc.shape[0] > 5: arr.data[ind] = metric(ref, pc) else: arr.data[ind] = np.nan`. -/
noncomputable def cellResult (metric : MetricFn) (ref : Mat)
    (cand : List (List (Option ℝ))) : Except DistErr (Option ℝ) :=
  let pc := compressValid cand
  if 5 < pc.length then metric (.two ref) (.two (matOfRows pc)) else .ok none

/-- Claim C10's side condition: no coincident points within either sample or
across the two samples (no zero pairwise distance). -/
def NoZeroPairDist (x y : Mat) : Prop :=
  (∀ i j, i < x.r → j < x.r → i ≠ j → sqDist x.c (x.row i) (x.row j) ≠ 0) ∧
  (∀ i j, i < y.r → j < y.r → i ≠ j → sqDist x.c (y.row i) (y.row j) ≠ 0) ∧
  (∀ i j, i < x.r → j < y.r → sqDist x.c (x.row i) (y.row j) ≠ 0)

/-! ### Concrete inputs used by witnesses and counterexamples -/

/-- 5 observations of 1 feature: `[[0], [1], [2], [3], [4]]`. -/
def mat51 : Mat := ⟨5, 1, fun i _ => (i : ℝ)⟩

/-- 5 observations of 1 feature: `[[8], [9], [10], [11], [12]]`. -/
def mat51' : Mat := ⟨5, 1, fun i _ => (i : ℝ) + 8⟩

/-- A `(2, 2)` sample, for the shape-mismatch witness. -/
def mat22 : Mat := ⟨2, 2, fun i j => (i : ℝ) + 2 * j⟩

/-- 3 observations of 10 features (all zero). -/
def mat3x10 : Mat := ⟨3, 10, fun _ _ => 0⟩

/-- 5 observations of 9 features. -/
def mat5x9 : Mat := ⟨5, 9, fun i j => (i : ℝ) + j⟩

/-- 6 observations of 9 features. -/
def mat6x9 : Mat := ⟨6, 9, fun i j => (i : ℝ) * j + 1⟩

/-- 3 observations of 1 feature. -/
def mat31 : Mat := ⟨3, 1, fun i _ => (i : ℝ)⟩

/-- 2 observations of 1 feature: `[[0], [1]]`. -/
def mat21 : Mat := ⟨2, 1, fun i _ => (i : ℝ)⟩

/-- 2 observations of 1 feature: `[[2], [3]]`. -/
def mat21' : Mat := ⟨2, 1, fun i _ => (i : ℝ) + 2⟩

/-- The Friedman–Rafsky counterexample's reference sample:
`[[0, 0], [1, 200]]`. -/
def matFRx : Mat :=
  ⟨2, 2, fun i j => if i = 0 then 0 else if j = 0 then 1 else 200⟩

/-- The Friedman–Rafsky counterexample's candidate sample:
`[[4, 100], [6, 500]]`. -/
def matFRy : Mat :=
  ⟨2, 2, fun i j =>
    if i = 0 then (if j = 0 then 4 else 100) else (if j = 0 then 6 else 500)⟩

/-- A reference sample for the dispatcher scenario. -/
def matRef6 : Mat := ⟨6, 1, fun i _ => (i : ℝ)⟩

/-- A per-position candidate block with exactly 5 fully valid rows (the third
row carries a masked value). -/
def cand5 : List (List (Option ℝ)) :=
  [[some 1], [some 2], [none], [some 3], [some 4], [some 5]]

/-! ## Helper lemmas -/

theorem normOne_two (x : Mat) (h : x.r ≠ 1) : normOne (.two x) = x := by
  unfold normOne np_atleast_2d
  simp [h]

theorem check_sample_shape_two_ok (x y : Mat) (hx : x.r ≠ 1) (hy : y.r ≠ 1)
    (hc : x.c = y.c) :
    check_sample_shape (.two x) (.two y) = .ok (x, y) := by
  simp only [check_sample_shape, normOne_two x hx, normOne_two y hy, if_pos hc]

theorem check_sample_shape_err (x y : NpArr) (h : (normOne x).c ≠ (normOne y).c) :
    check_sample_shape x y = .error .ShapeMismatch := by
  simp only [check_sample_shape, if_neg h]

theorem except_bind_error {ε α β : Type} (e : ε) (f : α → Except ε β) :
    (Except.error e >>= f) = Except.error e := rfl

theorem except_bind_ok {ε α β : Type} (a : α) (f : α → Except ε β) :
    (Except.ok a >>= f) = f a := rfl

/-! ## C6 — 1-D inputs are canonicalised to columns -/

/-- C6: a 1-D input of length `n` is normalised to shape `(n, 1)` — a column
of `n` observations of 1 feature, never `(1, n)` — and the rule applies to
both operands of `check_sample_shape` identically. -/
theorem one_dim_normalises_to_column (n : ℕ) (v : ℕ → ℝ) (m : ℕ) (w : ℕ → ℝ) :
    ∃ x' y', check_sample_shape (.one n v) (.one m w) = .ok (x', y') ∧
      x'.r = n ∧ x'.c = 1 ∧ y'.r = m ∧ y'.c = 1 :=
  ⟨_, _, rfl, rfl, rfl, rfl, rfl⟩

/-! ## C7 — mismatched feature counts fail in every metric -/

/-- C7: whenever the normalised feature counts differ, every registered
metric fails with `ShapeMismatch` before computing any distance. -/
theorem metrics_fail_on_shape_mismatch (x y : NpArr)
    (h : (normOne x).c ≠ (normOne y).c) :
    seuclidean x y = .error .ShapeMismatch ∧
    nearest_neighbor x y = .error .ShapeMismatch ∧
    zech_aslan x y = .error .ShapeMismatch ∧
    friedman_rafsky x y = .error .ShapeMismatch ∧
    ∀ k, kldiv x y k = .error .ShapeMismatch := by
  have hcs := check_sample_shape_err x y h
  refine ⟨?_, ?_, ?_, ?_, fun k => ?_⟩ <;>
    simp [seuclidean, nearest_neighbor, zech_aslan, friedman_rafsky, kldiv,
      hcs, except_bind_error]

/-- Witness for C7 at a `(5,1)` sample against a `(2,2)` sample. -/
theorem metrics_fail_on_shape_mismatch_witness :
    (normOne (.two mat51)).c ≠ (normOne (.two mat22)).c ∧
    kldiv (.two mat51) (.two mat22) (.scalar 1) = .error .ShapeMismatch := by
  have h : (normOne (.two mat51)).c ≠ (normOne (.two mat22)).c := by decide
  exact ⟨h, (metrics_fail_on_shape_mismatch (.two mat51) (.two mat22) h).2.2.2.2
    (.scalar 1)⟩

/-! ## C2 — undersized samples yield `nan` (for dimensionality below 10) -/

/-- C2 as amended: with matching feature counts BELOW 10, a sample with fewer
than 5 observations makes `kldiv` return `np.nan` without an exception, for
every choice of `k`.  (At dimensionality 10 and above the `assert (dx < 10)`
fires first — see the counterexample.) -/
theorem kldiv_small_sample_nan (x y : NpArr)
    (hc : (normOne x).c = (normOne y).c) (hd : (normOne x).c < 10)
    (hn : (normOne x).r < 5 ∨ (normOne y).r < 5) (k : KArg) :
    kldiv x y k = .ok .nan := by
  simp only [kldiv, check_sample_shape, if_pos hc, except_bind_ok,
    if_neg (by omega : ¬10 ≤ (normOne x).c), if_pos hn]

/-- Counterexample to C2 as stated: two matching samples of 3 observations of
10 features.  Both have fewer than 5 observations, yet `kldiv` raises the
dimensionality assertion instead of returning `nan` — the claim's "for every
choice of feature dimensionality" fails at dimensionality 10. -/
theorem kldiv_small_sample_dim10_raises :
    kldiv (.two mat3x10) (.two mat3x10) (.scalar 1) =
      .error .DimensionalityError ∧
    kldiv (.two mat3x10) (.two mat3x10) (.scalar 1) ≠ .ok .nan := by
  have h : kldiv (.two mat3x10) (.two mat3x10) (.scalar 1) =
      .error .DimensionalityError := rfl
  exact ⟨h, by rw [h]; exact fun hcon => Except.noConfusion hcon⟩

/-- Witness for the amended C2 at two `(3, 1)` samples. -/
theorem kldiv_small_sample_nan_witness :
    (normOne (.two mat31)).c = (normOne (.two mat31)).c ∧
    (normOne (.two mat31)).c < 10 ∧
    ((normOne (.two mat31)).r < 5 ∨ (normOne (.two mat31)).r < 5) ∧
    kldiv (.two mat31) (.two mat31) (.seq [1, 2]) = .ok .nan := by
  refine ⟨rfl, by decide, by decide, ?_⟩
  exact kldiv_small_sample_nan _ _ rfl (by decide) (by decide) _

/-! ## C8 — the dimensionality boundary of `kldiv` -/

/-- C8: with matching normalised feature counts, dimensionality 10 or more
always fails with `DimensionalityError` (whatever the sample sizes and `k`),
while dimensionality 9 with at least 5 observations on each side returns a
numeric value with no error. -/
theorem kldiv_dimensionality_boundary :
    (∀ (x y : NpArr) (k : KArg), (normOne x).c = (normOne y).c →
      10 ≤ (normOne x).c → kldiv x y k = .error .DimensionalityError) ∧
    (∀ x y : NpArr, (normOne x).c = (normOne y).c → (normOne x).c = 9 →
      5 ≤ (normOne x).r → 5 ≤ (normOne y).r →
      ∃ v, kldiv x y (.scalar 1) = .ok (.scalar v)) := by
  constructor
  · intro x y k hc h10
    simp only [kldiv, check_sample_shape, if_pos hc, except_bind_ok, if_pos h10]
  · intro x y hc h9 hx hy
    simp only [kldiv, check_sample_shape, if_pos hc, except_bind_ok,
      if_neg (by omega : ¬10 ≤ (normOne x).c),
      if_neg (by omega : ¬((normOne x).r < 5 ∨ (normOne y).r < 5))]
    exact ⟨_, rfl⟩

/-- Witness for C8: dimensionality 10 fails at `(3, 10)` samples even with a
sequence `k`; dimensionality 9 succeeds at `(5, 9)` vs `(6, 9)` samples. -/
theorem kldiv_dimensionality_boundary_witness :
    (10 ≤ (normOne (.two mat3x10)).c ∧
      kldiv (.two mat3x10) (.two mat3x10) (.seq [3]) =
        .error .DimensionalityError) ∧
    ((normOne (.two mat5x9)).c = 9 ∧ 5 ≤ (normOne (.two mat5x9)).r ∧
      ∃ v, kldiv (.two mat5x9) (.two mat6x9) (.scalar 1) = .ok (.scalar v)) := by
  refine ⟨⟨by decide, ?_⟩, ⟨by decide, by decide, ?_⟩⟩
  · exact kldiv_dimensionality_boundary.1 _ _ _ rfl (by decide)
  · exact kldiv_dimensionality_boundary.2 _ _ rfl (by decide) (by decide)
      (by decide)

/-! ## C9 — the dispatcher's algorithm registry -/

/-- C9 (registry modelled from the spec): each of the five registered names
resolves to its metric function, and every unregistered name fails with
`UnknownAlgorithm` before any computation. -/
theorem dispatcher_algorithm_registry :
    lookupMetric "seuclidean" = .ok seuclideanM ∧
    lookupMetric "nearest_neighbor" = .ok nearest_neighborM ∧
    lookupMetric "zech_aslan" = .ok zech_aslanM ∧
    lookupMetric "friedman_rafsky" = .ok friedman_rafskyM ∧
    lookupMetric "kldiv" = .ok kldivM ∧
    ∀ s, s ∉ registeredAlgos → lookupMetric s = .error .UnknownAlgorithm := by
  refine ⟨rfl, rfl, rfl, rfl, rfl, fun s hs => ?_⟩
  simp only [registeredAlgos, List.mem_cons, List.not_mem_nil, or_false] at hs
  push_neg at hs
  obtain ⟨h1, h2, h3, h4, h5⟩ := hs
  simp only [lookupMetric, if_neg h1, if_neg h2, if_neg h3, if_neg h4, if_neg h5]

/-- Witness for C9: the unregistered name `"kolmogorov_smirnov"` is
rejected. -/
theorem dispatcher_algorithm_registry_witness :
    "kolmogorov_smirnov" ∉ registeredAlgos ∧
    lookupMetric "kolmogorov_smirnov" = .error .UnknownAlgorithm := by
  have h : "kolmogorov_smirnov" ∉ registeredAlgos := by decide
  exact ⟨h, dispatcher_algorithm_registry.2.2.2.2.2 _ h⟩

/-! ## C3 — the dispatcher's valid-row threshold -/

/-- Evaluation of `Dissimilarity.calculate`'s per-position branch at a block
with exactly 5 fully valid rows: because the code tests `pc.shape[0] > 5`
(not `>= 5`), the position receives `np.nan` and the metric is never
invoked — against the spec's "fewer than 5 valid rows → NaN" and against the
`< 5` test used by `kldiv` itself and by the sibling dispatcher in
`wps_spatial_analog.py`. -/
theorem dispatcher_exactly_five_rows_nan :
    (compressValid cand5).length = 5 ∧
    cellResult seuclideanM matRef6 cand5 = .ok none :=
  ⟨rfl, rfl⟩

/-! ## C1, C4 — the `kldiv` estimate -/

theorem getD_take_of_lt {α : Type} (l : List α) (d : α) {K i : ℕ} (h : i < K) :
    (l.take K).getD i d = l.getD i d := by
  simp [List.getD_eq_getElem?_getD, List.getElem?_take_of_lt h]

/-- The loop entry computed from the size-`K` truncated queries agrees with
the closed form over the full sorted distance lists whenever `k < K`. -/
theorem klTerm_eq_formula (x y : Mat) {K k : ℕ} (hk : k < K) :
    klTerm x y K k = kldivSpecFormula x y k := by
  unfold klTerm kldivSpecFormula queryDists
  rw [Finset.sum_congr rfl fun i _ => by
    rw [getD_take_of_lt _ _ hk, getD_take_of_lt _ _ (by omega : k - 1 < K)]]
  ring

/-- Unfolding `kldiv` on a scalar `k` past all its guards: the query size is
`max(k) + 1 = k + 1` and the single loop entry is returned as a float. -/
theorem kldiv_scalar_eval (x y : Mat) (k : ℕ) (hc : x.c = y.c) (hd : x.c < 10)
    (hx : 5 ≤ x.r) (hy : 5 ≤ y.r) :
    kldiv (.two x) (.two y) (.scalar k) = .ok (.scalar (klTerm x y (k + 1) k)) := by
  rw [kldiv, check_sample_shape_two_ok x y (by omega) (by omega) hc]
  simp [except_bind_ok, if_neg (by omega : ¬10 ≤ x.c),
    if_neg (by omega : ¬(x.r < 5 ∨ y.r < 5)), KArg.toList]

/-- Unfolding `kldiv` on a sequence `k` past all its guards: one combined
query of size `max(ks) + 1`, one loop entry per requested rank, in order. -/
theorem kldiv_seq_eval (x y : Mat) (ks : List ℕ) (hc : x.c = y.c)
    (hd : x.c < 10) (hx : 5 ≤ x.r) (hy : 5 ≤ y.r) :
    kldiv (.two x) (.two y) (.seq ks) =
      .ok (.seq (ks.map (klTerm x y (ks.foldr max 0 + 1)))) := by
  rw [kldiv, check_sample_shape_two_ok x y (by omega) (by omega) hc]
  simp [except_bind_ok, if_neg (by omega : ¬10 ≤ x.c),
    if_neg (by omega : ¬(x.r < 5 ∨ y.r < 5)), KArg.toList]

theorem le_foldr_max {a : ℕ} {l : List ℕ} (h : a ∈ l) : a ≤ l.foldr max 0 := by
  induction l with
  | nil => cases h
  | cons b t ih =>
    rcases List.mem_cons.mp h with h' | h'
    · subst h'; exact le_max_left _ _
    · exact le_trans (ih h') (le_max_right _ _)

theorem getD_map_of_lt (f : ℕ → ℝ) (l : List ℕ) {i : ℕ} (h : i < l.length) :
    (l.map f).getD i 0 = f (l.getD i 0) := by
  rw [List.getD_eq_getElem?_getD, List.getD_eq_getElem?_getD,
    List.getElem?_map, List.getElem?_eq_getElem h]
  rfl

/-- C1: for matching feature count `d < 10`, at least 5 observations on each
side, and a positive in-range neighbour rank `k`, `kldiv(X, Y, k)` equals
`−(d/n) · Σ_i log(r_k(x_i)/s_k(x_i)) + log(m/(n−1))`, with `r_k(x_i)` the
entry at 0-based index `k` of the sorted self-query (whose 0th entry is
`x_i` itself at distance 0) and `s_k(x_i)` the entry at index `k−1` of the
sorted query against `Y`. -/
theorem kldiv_matches_closed_form (x y : Mat) (k : ℕ) (hc : x.c = y.c)
    (hd : x.c < 10) (hx : 5 ≤ x.r) (hy : 5 ≤ y.r) (hk1 : 1 ≤ k)
    (hkx : k < x.r) (hky : k ≤ y.r) :
    kldiv (.two x) (.two y) (.scalar k) =
      .ok (.scalar (kldivSpecFormula x y k)) := by
  rw [kldiv_scalar_eval x y k hc hd hx hy,
    klTerm_eq_formula x y (Nat.lt_succ_self k)]

/-- Witness for C1 at two `(5, 1)` samples with `k = 1`. -/
theorem kldiv_matches_closed_form_witness :
    (mat51.c = mat51'.c ∧ mat51.c < 10 ∧ 5 ≤ mat51.r ∧ 5 ≤ mat51'.r ∧
      1 ≤ 1 ∧ 1 < mat51.r ∧ 1 ≤ mat51'.r) ∧
    kldiv (.two mat51) (.two mat51') (.scalar 1) =
      .ok (.scalar (kldivSpecFormula mat51 mat51' 1)) :=
  ⟨⟨rfl, by decide, by decide, by decide, by decide, by decide, by decide⟩,
    kldiv_matches_closed_form mat51 mat51' 1 rfl (by decide) (by decide)
      (by decide) (by decide) (by decide) (by decide)⟩

/-- C4: on valid samples, a non-empty sequence of positive ranks produces a
sequence whose i-th element is exactly what the separate scalar call with
`k_i` returns, in the same order; a scalar `k` yields a `scalar` result and a
sequence `k` a `seq` result, even of length 1. -/
theorem kldiv_sequence_matches_scalar_calls (x y : Mat) (ks : List ℕ)
    (hc : x.c = y.c) (hd : x.c < 10) (hx : 5 ≤ x.r) (hy : 5 ≤ y.r)
    (hne : ks ≠ []) (hpos : ∀ k ∈ ks, 1 ≤ k) :
    ∃ vs : List ℝ, kldiv (.two x) (.two y) (.seq ks) = .ok (.seq vs) ∧
      vs.length = ks.length ∧
      ∀ i < ks.length, kldiv (.two x) (.two y) (.scalar (ks.getD i 0)) =
        .ok (.scalar (vs.getD i 0)) := by
  refine ⟨ks.map (kldivSpecFormula x y), ?_, by simp, ?_⟩
  · rw [kldiv_seq_eval x y ks hc hd hx hy]
    have : ks.map (klTerm x y (ks.foldr max 0 + 1)) =
        ks.map (kldivSpecFormula x y) :=
      List.map_congr_left fun k hk =>
        klTerm_eq_formula x y (by have := le_foldr_max hk; omega)
    rw [this]
  · intro i hi
    rw [kldiv_scalar_eval x y _ hc hd hx hy,
      getD_map_of_lt (kldivSpecFormula x y) ks hi,
      klTerm_eq_formula x y (Nat.lt_succ_self _)]

/-- Witness for C4 at two `(5, 1)` samples with `ks = [2, 1]`. -/
theorem kldiv_sequence_matches_scalar_calls_witness :
    (mat51.c = mat51'.c ∧ mat51.c < 10 ∧ 5 ≤ mat51.r ∧ 5 ≤ mat51'.r ∧
      [2, 1] ≠ ([] : List ℕ) ∧ ∀ k ∈ [2, 1], 1 ≤ k) ∧
    ∃ vs : List ℝ,
      kldiv (.two mat51) (.two mat51') (.seq [2, 1]) = .ok (.seq vs) ∧
      vs.length = 2 ∧
      ∀ i < 2, kldiv (.two mat51) (.two mat51') (.scalar ([2, 1].getD i 0)) =
        .ok (.scalar (vs.getD i 0)) :=
  ⟨⟨rfl, by decide, by decide, by decide, by decide, by decide⟩,
    kldiv_sequence_matches_scalar_calls mat51 mat51' [2, 1] rfl (by decide)
      (by decide) (by decide) (by decide) (by decide)⟩

/-! ## C10 — `zech_aslan` is symmetric -/

theorem check_sample_shape_ok (x y : NpArr)
    (hc : (normOne x).c = (normOne y).c) :
    check_sample_shape x y = .ok (normOne x, normOne y) := by
  simp only [check_sample_shape, if_pos hc]

theorem seuclDistV_comm (v : ℕ → ℝ) (c : ℕ) (u w : ℕ → ℝ) :
    seuclDistV v c u w = seuclDistV v c w u := by
  unfold seuclDistV
  congr 1
  exact Finset.sum_congr rfl fun j _ => by ring

/-- Exchanging the arguments of `zech_aslan` exchanges `phix` with `phiy`,
leaves the standardisation factor `v` unchanged, and transposes the cross
block, so the result is identical. -/
theorem zech_aslan_comm (x y : NpArr) : zech_aslan x y = zech_aslan y x := by
  by_cases hc : (normOne x).c = (normOne y).c
  · rw [zech_aslan, zech_aslan, check_sample_shape_ok x y hc,
      check_sample_shape_ok y x hc.symm]
    simp only [except_bind_ok]
    congr 1
    have hv : (fun j => colStd (normOne y) j * colStd (normOne x) j)
        = fun j => colStd (normOne x) j * colStd (normOne y) j :=
      funext fun j => mul_comm _ _
    rw [hv, ← hc]
    have hcross : (∑ i ∈ Finset.range (normOne x).r,
          ∑ j ∈ Finset.range (normOne y).r,
          Real.log (seuclDistV (fun j => colStd (normOne x) j *
            colStd (normOne y) j) (normOne x).c ((normOne x).row i)
            ((normOne y).row j)))
        = ∑ i ∈ Finset.range (normOne y).r, ∑ j ∈ Finset.range (normOne x).r,
          Real.log (seuclDistV (fun j => colStd (normOne x) j *
            colStd (normOne y) j) (normOne x).c ((normOne y).row i)
            ((normOne x).row j)) := by
      rw [Finset.sum_comm]
      exact Finset.sum_congr rfl fun i _ => Finset.sum_congr rfl fun j _ => by
        rw [seuclDistV_comm]
    rw [hcross]
    ring
  · rw [zech_aslan, zech_aslan, check_sample_shape_err x y hc,
      check_sample_shape_err y x (fun h => hc h.symm)]

/-- C10: for samples with matching normalised feature counts, at least two
observations each and no coincident points, `zech_aslan(x, y) =
zech_aslan(y, x)`. -/
theorem zech_aslan_symmetric (x y : NpArr)
    (hc : (normOne x).c = (normOne y).c) (hx : 2 ≤ (normOne x).r)
    (hy : 2 ≤ (normOne y).r) (hsep : NoZeroPairDist (normOne x) (normOne y)) :
    zech_aslan x y = zech_aslan y x :=
  zech_aslan_comm x y

/-- Witness for C10 at `[[0], [1]]` and `[[2], [3]]`. -/
theorem zech_aslan_symmetric_witness :
    ((normOne (.two mat21)).c = (normOne (.two mat21')).c ∧
      2 ≤ (normOne (.two mat21)).r ∧ 2 ≤ (normOne (.two mat21')).r ∧
      NoZeroPairDist (normOne (.two mat21)) (normOne (.two mat21'))) ∧
    zech_aslan (.two mat21) (.two mat21') =
      zech_aslan (.two mat21') (.two mat21) := by
  have hsep : NoZeroPairDist (normOne (.two mat21)) (normOne (.two mat21')) := by
    rw [NoZeroPairDist, normOne_two mat21 (by decide),
      normOne_two mat21' (by decide)]
    refine ⟨fun i j hi hj hne => ?_, fun i j hi hj hne => ?_,
      fun i j hi hj => ?_⟩ <;>
      simp only [mat21, mat21'] at hi hj ⊢ <;>
      interval_cases i <;> interval_cases j <;>
        simp_all [sqDist, Mat.row, mat21, mat21', Finset.sum_range_succ] <;>
        norm_num
  exact ⟨⟨rfl, by decide, by decide, hsep⟩,
    zech_aslan_symmetric _ _ rfl (by decide) (by decide) hsep⟩

/-! ## C5 — Friedman–Rafsky -/

theorem pickMin_mem (w : ℕ → ℕ → ℝ) : ∀ (l : List (ℕ × ℕ)) (e₀ : ℕ × ℕ),
    pickMin w l e₀ ∈ e₀ :: l := by
  intro l
  induction l with
  | nil => intro e₀; simp [pickMin]
  | cons p t ih =>
    intro e₀
    have h := ih (if w p.1 p.2 < w e₀.1 e₀.2 then p else e₀)
    simp only [pickMin, List.foldl_cons] at h ⊢
    rcases List.mem_cons.mp h with h' | h'
    · rw [h']
      split
      · exact List.mem_cons_of_mem _ (List.mem_cons_self _ _)
      · exact List.mem_cons_self _ _
    · exact List.mem_cons_of_mem _ (List.mem_cons_of_mem _ h')

theorem candidatePairs_snd_mem {tree rest : List ℕ} {e : ℕ × ℕ}
    (h : e ∈ candidatePairs tree rest) : e.2 ∈ rest := by
  unfold candidatePairs at h
  simp only [List.mem_flatMap, List.mem_map] at h
  obtain ⟨u, _, v, hv, rfl⟩ := h
  exact hv

/-- Prim's loop with a nonempty tree emits exactly `min fuel rest.length`
edges: each step moves one vertex out of `rest`. -/
theorem primGo_length (w : ℕ → ℕ → ℝ) :
    ∀ (fuel : ℕ) (tree rest : List ℕ), tree ≠ [] →
      (primGo w fuel tree rest).length = min fuel rest.length := by
  intro fuel
  induction fuel with
  | zero => intro tree rest _; simp [primGo]
  | succ n ih =>
    intro tree rest ht
    rw [primGo]
    split
    · rename_i heq
      have hrest : rest = [] := by
        cases rest with
        | nil => rfl
        | cons r rs =>
          cases tree with
          | nil => exact absurd rfl ht
          | cons a as => simp [candidatePairs] at heq
      subst hrest
      simp
    · rename_i c cs heq
      have hmem : (pickMin w cs c) ∈ candidatePairs tree rest := by
        rw [heq]; exact pickMin_mem w cs c
      have h2 : (pickMin w cs c).2 ∈ rest := candidatePairs_snd_mem hmem
      have hpos : 1 ≤ rest.length :=
        List.length_pos.mpr fun hr => by subst hr; cases h2
      have herase : (rest.erase (pickMin w cs c).2).length = rest.length - 1 := by
        rw [List.length_erase, if_pos h2]
      rw [List.length_cons,
        ih ((pickMin w cs c).2 :: tree) (rest.erase (pickMin w cs c).2)
          (by simp), herase]
      omega

theorem pickMin_sqrt (w : ℕ → ℕ → ℝ) (hw : ∀ i j, 0 ≤ w i j) :
    ∀ (l : List (ℕ × ℕ)) (e₀ : ℕ × ℕ),
      pickMin (fun i j => Real.sqrt (w i j)) l e₀ = pickMin w l e₀ := by
  intro l
  induction l with
  | nil => intro e₀; rfl
  | cons p t ih =>
    intro e₀
    simp only [pickMin, List.foldl_cons] at ih ⊢
    rw [show (if Real.sqrt (w p.1 p.2) < Real.sqrt (w e₀.1 e₀.2) then p else e₀)
        = (if w p.1 p.2 < w e₀.1 e₀.2 then p else e₀) from by
      by_cases h : w p.1 p.2 < w e₀.1 e₀.2
      · rw [if_pos h, if_pos ((Real.sqrt_lt_sqrt_iff (hw _ _)).mpr h)]
      · rw [if_neg h,
          if_neg fun hcon => h ((Real.sqrt_lt_sqrt_iff (hw _ _)).mp hcon)]]
    exact ih _

/-- The MST does not change when every edge weight is replaced by its square
root (a strictly monotone transform of nonneg weights): Prim only compares
weights. -/
theorem primGo_sqrt (w : ℕ → ℕ → ℝ) (hw : ∀ i j, 0 ≤ w i j) :
    ∀ (fuel : ℕ) (tree rest : List ℕ),
      primGo (fun i j => Real.sqrt (w i j)) fuel tree rest =
        primGo w fuel tree rest := by
  intro fuel
  induction fuel with
  | zero => intros; rfl
  | succ n ih =>
    intro tree rest
    rw [primGo, primGo]
    cases heq : candidatePairs tree rest with
    | nil => rfl
    | cons c cs => simp only [pickMin_sqrt w hw, ih]

/-- The Friedman–Rafsky tree over Euclidean distances equals the tree over
squared Euclidean distances. -/
theorem primMST_frWeight (m : Mat) (n : ℕ) :
    primMST (frWeight m) n =
      primMST (fun i j => sqDist m.c (m.row i) (m.row j)) n :=
  primGo_sqrt _ (fun _ _ => Finset.sum_nonneg fun _ _ => sq_nonneg _) _ _ _

theorem primMST_length (w : ℕ → ℕ → ℝ) (n : ℕ) :
    (primMST w n).length = n - 1 := by
  unfold primMST
  rw [primGo_length w (n - 1) [0] (List.range' 1 (n - 1)) (by simp),
    List.length_range']
  omega

/-- C5 as amended (no standardisation step): `friedman_rafsky` pools the
shape-normalised samples as they are, counts the spanning-tree edges joining
the two samples, and returns `1 − (1 + diff)/(n+m)`, which always lies in
`[0, (n+m−1)/(n+m)]`. -/
theorem friedman_rafsky_formula_and_range (x y : Mat) (hc : x.c = y.c)
    (hx : 2 ≤ x.r) (hy : 2 ≤ y.r) :
    friedman_rafsky (.two x) (.two y) =
      .ok (1 - (1 + (((primMST (frWeight (vstack x y)) (x.r + y.r)).countP
          (crossEdge x.r) : ℕ) : ℝ)) / ((x.r + y.r : ℕ) : ℝ)) ∧
    ∀ v : ℝ, friedman_rafsky (.two x) (.two y) = .ok v →
      0 ≤ v ∧ v ≤ (((x.r + y.r : ℕ) : ℝ) - 1) / ((x.r + y.r : ℕ) : ℝ) := by
  have heval : friedman_rafsky (.two x) (.two y) =
      .ok (1 - (1 + (((primMST (frWeight (vstack x y)) (x.r + y.r)).countP
          (crossEdge x.r) : ℕ) : ℝ)) / ((x.r + y.r : ℕ) : ℝ)) := by
    rw [friedman_rafsky, check_sample_shape_two_ok x y (by omega) (by omega) hc]
    rfl
  refine ⟨heval, fun v hv => ?_⟩
  rw [heval] at hv
  have hveq := (Except.ok.injEq _ _).mp hv
  set D : ℕ := (primMST (frWeight (vstack x y)) (x.r + y.r)).countP
    (crossEdge x.r) with hD
  have hDle : D ≤ x.r + y.r - 1 := by
    rw [hD]
    exact le_trans (List.countP_le_length _)
      (le_of_eq (primMST_length _ _))
  have hN : (0 : ℝ) < ((x.r + y.r : ℕ) : ℝ) := by
    have : 0 < x.r + y.r := by omega
    exact_mod_cast this
  have hDcast : ((D : ℕ) : ℝ) ≤ ((x.r + y.r : ℕ) : ℝ) - 1 := by
    have h1 : ((D : ℕ) : ℝ) ≤ (((x.r + y.r - 1 : ℕ)) : ℝ) := by exact_mod_cast hDle
    have h2 : (((x.r + y.r - 1 : ℕ)) : ℝ) = ((x.r + y.r : ℕ) : ℝ) - 1 := by
      have : 1 ≤ x.r + y.r := by omega
      push_cast [this]
      ring
    rw [h2] at h1
    exact h1
  subst hveq
  constructor
  · have hfrac : (1 + (D : ℝ)) / ((x.r + y.r : ℕ) : ℝ) ≤ 1 := by
      rw [div_le_one hN]
      linarith
    linarith
  · have hfrac : 1 / ((x.r + y.r : ℕ) : ℝ) ≤ (1 + (D : ℝ)) / ((x.r + y.r : ℕ) : ℝ) := by
      refine div_le_div_of_nonneg_right ?_ hN.le
      have : (0 : ℝ) ≤ (D : ℝ) := Nat.cast_nonneg _
      linarith
    have hrw : (((x.r + y.r : ℕ) : ℝ) - 1) / ((x.r + y.r : ℕ) : ℝ) =
        1 - 1 / ((x.r + y.r : ℕ) : ℝ) := by
      field_simp
    rw [hrw]
    linarith

/-- Witness for the amended C5 at the two `(2, 2)` samples of the
counterexample. -/
theorem friedman_rafsky_formula_and_range_witness :
    (matFRx.c = matFRy.c ∧ 2 ≤ matFRx.r ∧ 2 ≤ matFRy.r) ∧
    (∀ v : ℝ, friedman_rafsky (.two matFRx) (.two matFRy) = .ok v →
      0 ≤ v ∧ v ≤ (((matFRx.r + matFRy.r : ℕ) : ℝ) - 1) /
        ((matFRx.r + matFRy.r : ℕ) : ℝ)) :=
  ⟨⟨rfl, by decide, by decide⟩,
    (friedman_rafsky_formula_and_range matFRx matFRy rfl (by decide)
      (by decide)).2⟩

theorem stdFactor_FR_0 : stdFactor matFRx matFRy 0 = 1 := by
  rw [stdFactor, colStd, colStd,
    show colVar matFRx 0 = 1 / 2 from by
      norm_num [colVar, colMean, matFRx, Finset.sum_range_succ],
    show colVar matFRy 0 = 2 from by
      norm_num [colVar, colMean, matFRy, Finset.sum_range_succ],
    ← Real.sqrt_mul (by norm_num : (0 : ℝ) ≤ 1 / 2)]
  norm_num [Real.sqrt_one]

theorem stdFactor_FR_1 : stdFactor matFRx matFRy 1 = 200 := by
  rw [stdFactor, colStd, colStd,
    show colVar matFRx 1 = 20000 from by
      norm_num [colVar, colMean, matFRx, Finset.sum_range_succ],
    show colVar matFRy 1 = 80000 from by
      norm_num [colVar, colMean, matFRy, Finset.sum_range_succ],
    ← Real.sqrt_mul (by norm_num : (0 : ℝ) ≤ 20000),
    show (20000 : ℝ) * 80000 = 40000 ^ 2 from by norm_num,
    Real.sqrt_sq (by norm_num : (0 : ℝ) ≤ 40000),
    show (40000 : ℝ) = 200 ^ 2 from by norm_num,
    Real.sqrt_sq (by norm_num : (0 : ℝ) ≤ 200)]

/-- Counterexample to C5 as stated: at `X = [[0,0],[1,200]]`,
`Y = [[4,100],[6,500]]` (all pairwise distances distinct both before and
after standardisation, so the MST is unique), the source's
`friedman_rafsky` — which never standardizes — returns `0`, while the
claimed pipeline with the standardisation step returns `1/2`. -/
theorem friedman_rafsky_standardization_cex :
    friedman_rafsky (.two matFRx) (.two matFRy) = .ok 0 ∧
    friedman_rafsky_claimed (.two matFRx) (.two matFRy) = .ok (1 / 2) ∧
    friedman_rafsky (.two matFRx) (.two matFRy) ≠
      friedman_rafsky_claimed (.two matFRx) (.two matFRy) := by
  have hraw : friedman_rafsky (.two matFRx) (.two matFRy) = .ok 0 := by
    rw [friedman_rafsky,
      check_sample_shape_two_ok matFRx matFRy (by decide) (by decide) rfl]
    simp only [except_bind_ok]
    rw [primMST_frWeight]
    norm_num [primMST, primGo, candidatePairs, pickMin, sqDist, vstack,
      Mat.row, matFRx, matFRy, Finset.sum_range_succ, Finset.sum_range_zero,
      List.range', List.erase, crossEdge, List.countP, List.countP.go,
      show ((1 : ℕ) == (2 : ℕ)) = false from rfl,
      show ((1 : ℕ) == (3 : ℕ)) = false from rfl,
      show ((2 : ℕ) == (3 : ℕ)) = false from rfl]
  have hstd : friedman_rafsky_claimed (.two matFRx) (.two matFRy) = .ok (1 / 2) := by
    rw [friedman_rafsky_claimed,
      check_sample_shape_two_ok matFRx matFRy (by decide) (by decide) rfl]
    simp only [except_bind_ok, standardize]
    rw [primMST_frWeight]
    norm_num [primMST, primGo, candidatePairs, pickMin, sqDist, vstack,
      Mat.row, stdFactor_FR_0, stdFactor_FR_1,
      Finset.sum_range_succ, Finset.sum_range_zero,
      List.range', List.erase, crossEdge, List.countP, List.countP.go,
      show ((1 : ℕ) == (2 : ℕ)) = false from rfl,
      show ((1 : ℕ) == (3 : ℕ)) = false from rfl,
      show ((2 : ℕ) == (3 : ℕ)) = false from rfl,
      show matFRx.r = 2 from rfl, show matFRx.c = 2 from rfl,
      show matFRy.r = 2 from rfl, show matFRy.c = 2 from rfl,
      show matFRx.entry 0 0 = 0 from rfl, show matFRx.entry 0 1 = 0 from rfl,
      show matFRx.entry 1 0 = 1 from rfl, show matFRx.entry 1 1 = 200 from rfl,
      show matFRy.entry 0 0 = 4 from rfl, show matFRy.entry 0 1 = 100 from rfl,
      show matFRy.entry 1 0 = 6 from rfl, show matFRy.entry 1 1 = 500 from rfl]
  refine ⟨hraw, hstd, ?_⟩
  rw [hraw, hstd]
  intro hcon
  have := (Except.ok.injEq _ _).mp hcon
  norm_num at this

end FP
